import Mathlib

/-!
Verification of the Diracxx polarization algebra and cross-section engine.

The development embeds, in Lean over the real and complex numbers, the
SU(2) Pauli spinor/matrix algebra of `TPauliSpinor.cxx` / `TPauliMatrix.cxx`
and the helicity-contraction and kinematic-normalization code of
`TCrossSection.cxx`.  Machine floating point is modelled by exact real
arithmetic.  Components that the package treats as external collaborators
(four-vector arithmetic, the Dirac gamma-matrix algebra and Dirac spinors)
enter only through the values they produce, so the amplitude tensors built
from them are universally quantified parameters here, while the code under
verification (SDM contraction loops, kinematic factors, branch structure)
is translated statement by statement.
-/

noncomputable section

open Complex Classical

namespace Diracxx

/-- Static tolerance `fResolution = 1e-12` shared by `TPauliSpinor` and
`TPauliMatrix`. -/
def Resolution : ℝ := 1e-12

/-- A Pauli spinor: 2-vector of complex numbers (`fSpinor[0..1]`). -/
structure PauliSpinor where
  c0 : ℂ
  c1 : ℂ

/-- A Pauli matrix: 2x2 complex matrix (`fMatrix[0..1][0..1]`). -/
structure PauliMatrix where
  m00 : ℂ
  m01 : ℂ
  m10 : ℂ
  m11 : ℂ

/-- Componentwise negation of a Pauli spinor. -/
def PauliSpinor.negS (s : PauliSpinor) : PauliSpinor :=
  ⟨-s.c0, -s.c1⟩

/-- Embedding of `TPauliSpinor::SetPolar(theta, phi)`:
`fSpinor[0] = cosHalfTheta * (cosHalfPhi - i*sinHalfPhi)`,
`fSpinor[1] = sinHalfTheta * (cosHalfPhi + i*sinHalfPhi)`. -/
def setPolar (theta phi : ℝ) : PauliSpinor :=
  ⟨(Real.cos (theta/2) : ℂ) * ((Real.cos (phi/2) : ℂ) - Complex.I * (Real.sin (phi/2) : ℂ)),
   (Real.sin (theta/2) : ℂ) * ((Real.cos (phi/2) : ℂ) + Complex.I * (Real.sin (phi/2) : ℂ))⟩

/-- Embedding of `TPauliSpinor::Operate(xOp)`: left-multiplication of the
spinor by a 2x2 operator. -/
def operate (xOp : PauliMatrix) (s : PauliSpinor) : PauliSpinor :=
  ⟨xOp.m00 * s.c0 + xOp.m01 * s.c1,
   xOp.m10 * s.c0 + xOp.m11 * s.c1⟩

/-- Embedding of the complex-coefficient `TPauliMatrix::Compose(a, polar)`:
`fMatrix[0][0] = a + polar[3]`, `fMatrix[0][1] = polar[1] - i*polar[2]`,
`fMatrix[1][0] = polar[1] + i*polar[2]`, `fMatrix[1][1] = a - polar[3]`. -/
def composeC (a b1 b2 b3 : ℂ) : PauliMatrix :=
  ⟨a + b3, b1 - Complex.I * b2, b1 + Complex.I * b2, a - b3⟩

/-- Embedding of the real-coefficient `TPauliMatrix::Compose(a, polar)`. -/
def composeR (a b1 b2 b3 : ℝ) : PauliMatrix :=
  composeC (a : ℂ) (b1 : ℂ) (b2 : ℂ) (b3 : ℂ)

/-- Embedding of `TPauliMatrix::SetRotation(axis, angle)` for a real axis
`(n1,n2,n3)`: `a = cos(angle/2)`, then the axis is normalized to unit
length and scaled by `i*sin(angle/2)`, and the result is composed via
`Compose(a, b)`. -/
def setRotationAxis (n1 n2 n3 angle : ℝ) : PauliMatrix :=
  composeC (Real.cos (angle/2) : ℂ)
    (Complex.I * (Real.sin (angle/2) : ℂ) * ((n1 / Real.sqrt (n1^2 + n2^2 + n3^2) : ℝ) : ℂ))
    (Complex.I * (Real.sin (angle/2) : ℂ) * ((n2 / Real.sqrt (n1^2 + n2^2 + n3^2) : ℝ) : ℂ))
    (Complex.I * (Real.sin (angle/2) : ℂ) * ((n3 / Real.sqrt (n1^2 + n2^2 + n3^2) : ℝ) : ℂ))

/-- Embedding of `TPauliSpinor::Rotate(axis, angle)`: build the SU(2)
rotation operator and apply it with `Operate`. -/
def rotateAxis (s : PauliSpinor) (n1 n2 n3 angle : ℝ) : PauliSpinor :=
  operate (setRotationAxis n1 n2 n3 angle) s

/-- Modelled from the spec: `TPauliMatrix::Determ` is inline in the header
`TPauliMatrix.h`, which is not part of the sources here; per the spec the
inverse is "via the closed-form 2x2 adjugate/determinant", so `Determ` is
the standard 2x2 determinant. -/
def determ (M : PauliMatrix) : ℂ :=
  M.m00 * M.m11 - M.m01 * M.m10

/-- Modelled from the spec: `TPauliMatrix::IsHermetian` is inline in the
header, which is not part of the sources here; per the spec a matrix is
Hermitian when `M = Mdagger` within `Resolution`, compared entrywise in the
same style as `operator==`. -/
def isHermetian (M : PauliMatrix) : Prop :=
  Complex.abs (M.m00 - (starRingEnd ℂ) M.m00) < Resolution ∧
  Complex.abs (M.m01 - (starRingEnd ℂ) M.m10) < Resolution ∧
  Complex.abs (M.m10 - (starRingEnd ℂ) M.m01) < Resolution ∧
  Complex.abs (M.m11 - (starRingEnd ℂ) M.m11) < Resolution

/-- Embedding of `TPauliMatrix::Invert`, returning the updated matrix paired
with the error-diagnostic flag: when `|Determ| < Resolution` the code calls
`Error(...)` and returns `*this` unchanged, otherwise it replaces the matrix
by its adjugate divided by the determinant. -/
def invertRun (M : PauliMatrix) : PauliMatrix × Prop :=
  if Complex.abs (determ M) < Resolution then
    (M, True)
  else
    (⟨M.m11 / determ M, -M.m01 / determ M, -M.m10 / determ M, M.m00 / determ M⟩, False)

/-- Embedding of the real-coefficient `TPauliMatrix::Decompose(a, b)`,
returning `(a, b1, b2, b3)` paired with the error-diagnostic flag: when the
matrix is not Hermitian within tolerance the code calls `Error(...)` and
zeroes all four outputs, otherwise
`a = real(m00+m11)/2`, `b1 = real(m10+m01)/2`, `b2 = imag(m10-m01)/2`,
`b3 = real(m00-m11)/2`. -/
def decomposeRunR (M : PauliMatrix) : (ℝ × ℝ × ℝ × ℝ) × Prop :=
  if isHermetian M then
    (((M.m00 + M.m11).re / 2,
      (M.m10 + M.m01).re / 2,
      (M.m10 - M.m01).im / 2,
      (M.m00 - M.m11).re / 2), False)
  else
    ((0, 0, 0, 0), True)

/-- Embedding of `TPauliMatrix::operator*=`: 2x2 matrix product, receiver
on the left. -/
def matMul (A B : PauliMatrix) : PauliMatrix :=
  ⟨A.m00 * B.m00 + A.m01 * B.m10,
   A.m00 * B.m01 + A.m01 * B.m11,
   A.m10 * B.m00 + A.m11 * B.m10,
   A.m10 * B.m01 + A.m11 * B.m11⟩

/-- Modelled from the spec: `TPauliMatrix::Adjoint` is inline in the header,
which is not part of the sources here; it is the Hermitian conjugate
(conjugate transpose) used by `UniTransform` for `M A Mdagger`. -/
def adjointM (A : PauliMatrix) : PauliMatrix :=
  ⟨(starRingEnd ℂ) A.m00, (starRingEnd ℂ) A.m10,
   (starRingEnd ℂ) A.m01, (starRingEnd ℂ) A.m11⟩

/-- Modelled from the spec: `TPauliMatrix::operator/=` is inline in the
header, which is not part of the sources here; per the spec `SimTransform`
produces `M A Minverse` through `*this /= m`, so division right-multiplies
by the inverse of the argument as computed by `Invert` (with its singular
guard). -/
def divAssign (A m : PauliMatrix) : PauliMatrix :=
  matMul A (invertRun m).1

/-- Embedding of `TPauliMatrix::SimTransform(m)`: `oldOp = *this`,
`*this = m`, `*this *= oldOp`, `*this /= m`. -/
def simTransform (A m : PauliMatrix) : PauliMatrix :=
  divAssign (matMul m A) m

/-- Embedding of `TPauliMatrix::UniTransform(m)`: `mtemp = m`,
`oldOp = *this`, `*this = m`, `*this *= oldOp`, `*this *= mtemp.Adjoint()`. -/
def uniTransform (A m : PauliMatrix) : PauliMatrix :=
  matMul (matMul m A) (adjointM m)

/-- Closed-form 2x2 inverse (adjugate over determinant), the mathematical
reference value for `Invert` on a non-singular matrix. -/
def closedInverse (M : PauliMatrix) : PauliMatrix :=
  ⟨M.m11 / determ M, -M.m01 / determ M, -M.m10 / determ M, M.m00 / determ M⟩

/-- The 2x2 identity matrix (`kPauliOne`). -/
def idPauli : PauliMatrix :=
  ⟨1, 0, 0, 1⟩

/-- Modelled from the spec: `TFourVectorReal` is an external collaborator
(spec section 3), a length-4 real tuple with the time-like component first. -/
structure FourVector where
  t : ℝ
  x : ℝ
  y : ℝ
  z : ℝ

/-- Modelled from the spec: Minkowski scalar product of two four-vectors
(`ScalarProd`), metric signature (+,-,-,-). -/
def scalarProd (p q : FourVector) : ℝ :=
  p.t * q.t - p.x * q.x - p.y * q.y - p.z * q.z

/-- Modelled from the spec: `InvariantSqr` is the Minkowski norm of a
four-vector. -/
def invariantSqr (p : FourVector) : ℝ :=
  scalarProd p p

/-- Modelled from the spec: `Length` of a four-vector is the magnitude of
its spatial (momentum) part, as used in the flux factor
`4 E_beam (|p| + E)`. -/
def vlength (p : FourVector) : ℝ :=
  Real.sqrt (p.x ^ 2 + p.y ^ 2 + p.z ^ 2)

/-- Componentwise difference of four-vectors. -/
def fvSub (p q : FourVector) : FourVector :=
  ⟨p.t - q.t, p.x - q.x, p.y - q.y, p.z - q.z⟩

/-- Componentwise sum of four-vectors. -/
def fvAdd (p q : FourVector) : FourVector :=
  ⟨p.t + q.t, p.x + q.x, p.y + q.y, p.z + q.z⟩

/-- A 2x2 complex spin-density matrix, indexed as `SDM()[row][col]`. -/
def Sdm : Type :=
  Fin 2 → Fin 2 → ℂ

/-- The pure (rank-1 idempotent) SDM projecting onto the single basis state
`k`: entry `(k,k)` is 1 and every other entry is 0. -/
def pureSDM (k : Fin 2) : Sdm :=
  fun i j => if i = k ∧ j = k then 1 else 0

/-- The 2x2 identity SDM (unpolarized ensemble). -/
def idSDM : Sdm :=
  fun i j => if i = j then 1 else 0

/-- Embedding of the spin contraction loop of `TCrossSection::Compton`
(lines 193-216): the eight nested helicity loops accumulating
`invAmp[hi][hf][gi][gf] * conj(invAmp[hibar][hfbar][gibar][gfbar])
 * eI.SDM[hi][hibar] * eF.SDM[hfbar][hf] * gI.SDM[gi][gibar]
 * gF.SDM[gfbar][gf]`. -/
def comptonAmpSquared (invAmp : Fin 2 → Fin 2 → Fin 2 → Fin 2 → ℂ)
    (sdmEI sdmEF sdmGI sdmGF : Sdm) : ℂ :=
  ∑ gi : Fin 2, ∑ gibar : Fin 2, ∑ gf : Fin 2, ∑ gfbar : Fin 2,
  ∑ hi : Fin 2, ∑ hibar : Fin 2, ∑ hf : Fin 2, ∑ hfbar : Fin 2,
    invAmp hi hf gi gf * (starRingEnd ℂ) (invAmp hibar hfbar gibar gfbar) *
      sdmEI hi hibar * sdmEF hfbar hf * sdmGI gi gibar * sdmGF gfbar gf

/-- Embedding of the Compton kinematic factors (lines 228-230):
`fluxIn = 4*gI.Mom()[0]*(eI.Mom().Length()+eI.Mom()[0])`,
`rhoFin = sqr(gF.Mom()[0])/eF.Mom().ScalarProd(gF.Mom())/4`,
`kinFactor = 4*rhoFin/fluxIn`. -/
def comptonKinFactor (momGI momEI momGF momEF : FourVector) : ℝ :=
  4 * ((momGF.t * momGF.t) / scalarProd momEF momGF / 4) /
    (4 * momGI.t * (vlength momEI + momEI.t))

/-- Embedding of the value returned by `TCrossSection::Compton`:
`diffXsect = hbarcSqr*sqr(alphaQED)*real(ampSquared)*kinFactor`, followed by
`return diffXsect`. -/
def compton (hbarcSqr alphaQED : ℝ)
    (invAmp : Fin 2 → Fin 2 → Fin 2 → Fin 2 → ℂ)
    (sdmEI sdmEF sdmGI sdmGF : Sdm)
    (momGI momEI momGF momEF : FourVector) : ℝ :=
  hbarcSqr * (alphaQED * alphaQED) *
    (comptonAmpSquared invAmp sdmEI sdmEF sdmGI sdmGF).re *
    comptonKinFactor momGI momEI momGF momEF

/-- Embedding of the Klein-Nishina comparison formula that appears after the
unconditional `return diffXsect` in `TCrossSection::Compton`
(lines 236-243). -/
def kleinNishina (hbarcSqr alphaQED mLepton : ℝ) (momGI momGF : FourVector) : ℝ :=
  ((alphaQED / mLepton) * (alphaQED / mLepton)) / 2 *
    ((momGF.t / momGI.t) * (momGF.t / momGI.t)) *
    (momGF.t / momGI.t + momGI.t / momGF.t - (1 - (momGF.z / momGF.t) * (momGF.z / momGF.t))) *
    hbarcSqr

/-- Faithful model of the `TCrossSection::Compton` function including its
diagnostic channel: the source contains no `DEBUGGING` self-check in
`Compton`, so the warning component is constantly `False`. -/
def comptonRun (hbarcSqr alphaQED : ℝ)
    (invAmp : Fin 2 → Fin 2 → Fin 2 → Fin 2 → ℂ)
    (sdmEI sdmEF sdmGI sdmGF : Sdm)
    (momGI momEI momGF momEF : FourVector) : ℝ × Prop :=
  (compton hbarcSqr alphaQED invAmp sdmEI sdmEF sdmGI sdmGF momGI momEI momGF momEF,
   False)

/-- Embedding of the `DEBUGGING` self-check condition shared by the process
functions that have it: warn when `real(ampSquared) < 0` or
`fabs(ampSquared.imag()) > fabs(ampSquared / 1e8)`. -/
def ampWarning (z : ℂ) : Prop :=
  z.re < 0 ∨ |z.im| > Complex.abs (z / 1e8)

/-- Embedding of the spin contraction loop of
`TCrossSection::Bremsstrahlung` (lines 304-325):
`invAmp[hi][hf][gf] * conj(invAmp[hibar][hfbar][gfbar])
 * eI.SDM[hi][hibar] * eF.SDM[hfbar][hf] * gF.SDM[gfbar][gf]`. -/
def bremsAmpSquared (invAmp : Fin 2 → Fin 2 → Fin 2 → ℂ)
    (sdmEI sdmEF sdmGF : Sdm) : ℂ :=
  ∑ gf : Fin 2, ∑ gfbar : Fin 2, ∑ hi : Fin 2, ∑ hibar : Fin 2,
  ∑ hf : Fin 2, ∑ hfbar : Fin 2,
    invAmp hi hf gf * (starRingEnd ℂ) (invAmp hibar hfbar gfbar) *
      sdmEI hi hibar * sdmEF hfbar hf * sdmGF gfbar gf

/-- Embedding of the value returned by `TCrossSection::Bremsstrahlung`:
`qRecoil = eI - eF - gF`, `kinFactor = 1/sqr(2*PI*eI.Mom()[0])`,
`diffXsect = hbarcSqr*pow(alphaQED,3)*real(ampSquared)*kinFactor
 /sqr(qRecoil.InvariantSqr())`. -/
def bremsXsect (hbarcSqr alphaQED : ℝ)
    (invAmp : Fin 2 → Fin 2 → Fin 2 → ℂ)
    (sdmEI sdmEF sdmGF : Sdm)
    (momEI momEF momGF : FourVector) : ℝ :=
  hbarcSqr * alphaQED ^ 3 * (bremsAmpSquared invAmp sdmEI sdmEF sdmGF).re *
    (1 / ((2 * Real.pi * momEI.t) * (2 * Real.pi * momEI.t))) /
    (invariantSqr (fvSub (fvSub momEI momEF) momGF) *
     invariantSqr (fvSub (fvSub momEI momEF) momGF))

/-- Faithful model of the `TCrossSection::Bremsstrahlung` function including
its diagnostic channel: the value is computed unconditionally, and the
`DEBUGGING` block (lines 327-340) emits a warning exactly when the
contracted amplitude fails the reality/positivity check. -/
def bremsRun (hbarcSqr alphaQED : ℝ)
    (invAmp : Fin 2 → Fin 2 → Fin 2 → ℂ)
    (sdmEI sdmEF sdmGF : Sdm)
    (momEI momEF momGF : FourVector) : ℝ × Prop :=
  (bremsXsect hbarcSqr alphaQED invAmp sdmEI sdmEF sdmGF momEI momEF momGF,
   ampWarning (bremsAmpSquared invAmp sdmEI sdmEF sdmGF))

/-- Embedding of the spin contraction loop of
`TCrossSection::eeBremsstrahlung` (lines 1031-1059):
`invAmp[h0][h1][h2][h3][gf] * conj(invAmp[h0bar][h1bar][h2bar][h3bar][gfbar])
 * e0.SDM[h0][h0bar] * e1.SDM[h1][h1bar] * e2.SDM[h2bar][h2]
 * e3.SDM[h3bar][h3] * g0.SDM[gfbar][gf]`. -/
def eeBremsAmpSquared (invAmp : Fin 2 → Fin 2 → Fin 2 → Fin 2 → Fin 2 → ℂ)
    (sdm0 sdm1 sdm2 sdm3 sdmG : Sdm) : ℂ :=
  ∑ gf : Fin 2, ∑ gfbar : Fin 2, ∑ h0 : Fin 2, ∑ h0bar : Fin 2,
  ∑ h1 : Fin 2, ∑ h1bar : Fin 2, ∑ h2 : Fin 2, ∑ h2bar : Fin 2,
  ∑ h3 : Fin 2, ∑ h3bar : Fin 2,
    invAmp h0 h1 h2 h3 gf * (starRingEnd ℂ) (invAmp h0bar h1bar h2bar h3bar gfbar) *
      sdm0 h0 h0bar * sdm1 h1 h1bar * sdm2 h2bar h2 * sdm3 h3bar h3 * sdmG gfbar gf

/-- Embedding of the value returned by `TCrossSection::eeBremsstrahlung`
(lines 1084-1088): `kinFactor = 1/sqr(2*PI*e0.Mom()[0])` then
`kinFactor /= 4*e1.Mom()[0]*e3.Mom()[0]`, and
`diffXsect = hbarcSqr*pow(alphaQED,3)*real(ampSquared)*kinFactor`. -/
def eeBremsXsect (hbarcSqr alphaQED : ℝ)
    (invAmp : Fin 2 → Fin 2 → Fin 2 → Fin 2 → Fin 2 → ℂ)
    (sdm0 sdm1 sdm2 sdm3 sdmG : Sdm)
    (momE0 momE1 momE3 : FourVector) : ℝ :=
  hbarcSqr * alphaQED ^ 3 *
    (eeBremsAmpSquared invAmp sdm0 sdm1 sdm2 sdm3 sdmG).re *
    (1 / ((2 * Real.pi * momE0.t) * (2 * Real.pi * momE0.t)) /
      (4 * momE1.t * momE3.t))

/-- A complex number equal to zero is within the `Resolution` tolerance. -/
lemma abs_lt_res_of_eq_zero {z : ℂ} (hz : z = 0) : Complex.abs z < Resolution := by
  rw [hz]
  simp [Resolution]
  norm_num

/-- Claim C5 counterexample: at `phi = pi`, `SetPolar(0, phi)` is the spinor
`(-i, 0)`, not `(1, 0)`: the claim that `SetPolar(0, phi)` produces exactly
`(1, 0)` for every `phi` is false. -/
theorem setPolar_zero_pi_ne_one_zero : setPolar 0 Real.pi ≠ ⟨1, 0⟩ := by
  intro h
  have h0 := congrArg PauliSpinor.c0 h
  simp [setPolar, Real.cos_pi_div_two, Real.sin_pi_div_two, Complex.ext_iff] at h0

/-- Claim C5 (amended): for every `phi`, `SetPolar(0, phi)` produces the
spinor `(exp(-i phi/2), 0)` — the reference state `(1,0)` times a global
phase — and `SetPolar(pi, phi)` produces `(0, exp(i phi/2))`; at `phi = 0`
these are exactly `(1, 0)` and `(0, 1)`. -/
theorem setPolar_poles (phi : ℝ) :
    setPolar 0 phi = ⟨Complex.exp (-(phi : ℂ)/2 * Complex.I), 0⟩ ∧
    setPolar Real.pi phi = ⟨0, Complex.exp ((phi : ℂ)/2 * Complex.I)⟩ ∧
    setPolar 0 0 = ⟨1, 0⟩ ∧
    setPolar Real.pi 0 = ⟨0, 1⟩ := by
  have key : ∀ x : ℝ, Complex.exp ((x : ℂ) * Complex.I) =
      (Real.cos x : ℂ) + Complex.I * (Real.sin x : ℂ) := by
    intro x
    rw [Complex.exp_mul_I]
    simp [Complex.ofReal_cos, Complex.ofReal_sin, mul_comm]
  have k1 : Complex.exp (-(phi : ℂ)/2 * Complex.I) =
      (Real.cos (phi/2) : ℂ) - Complex.I * (Real.sin (phi/2) : ℂ) := by
    have e : (-(phi : ℂ)/2) = ((-(phi/2) : ℝ) : ℂ) := by push_cast; ring
    rw [e, key, Real.cos_neg, Real.sin_neg]
    push_cast
    ring
  have k2 : Complex.exp ((phi : ℂ)/2 * Complex.I) =
      (Real.cos (phi/2) : ℂ) + Complex.I * (Real.sin (phi/2) : ℂ) := by
    have e : ((phi : ℂ)/2) = (((phi/2) : ℝ) : ℂ) := by push_cast; ring
    rw [e, key]
  refine ⟨?_, ?_, ?_, ?_⟩ <;>
    simp [setPolar, k1, k2, PauliSpinor.mk.injEq, Real.cos_pi_div_two, Real.sin_pi_div_two]

/-- Claim C6: rotating any Pauli spinor about any axis by `2 pi` (via
`Rotate` with explicit axis and angle) negates the spinor, and rotating by
`4 pi` restores it. -/
theorem rotate_two_pi_negates (s : PauliSpinor) (n1 n2 n3 : ℝ) :
    rotateAxis s n1 n2 n3 (2 * Real.pi) = s.negS ∧
    rotateAxis s n1 n2 n3 (4 * Real.pi) = s := by
  have e1 : (2 * Real.pi) / 2 = Real.pi := by ring
  have e2 : (4 * Real.pi) / 2 = 2 * Real.pi := by ring
  constructor <;>
    simp [rotateAxis, setRotationAxis, composeC, operate, e1, e2, Real.cos_pi, Real.sin_pi,
      Real.cos_two_pi, Real.sin_two_pi, PauliSpinor.negS, PauliSpinor.mk.injEq]

/-- Claim C7: singular-operator errors never raise and have a defined
fallback: `Invert` on a matrix whose determinant magnitude is below
`Resolution` reports the diagnostic and leaves the matrix unchanged, and the
real-coefficient `Decompose` on a matrix that is not Hermitian within
`Resolution` reports the diagnostic and zeroes the scalar and all three
vector components of the output. -/
theorem singular_operator_fallback (M N : PauliMatrix)
    (hM : Complex.abs (determ M) < Resolution) (hN : ¬ isHermetian N) :
    (invertRun M).1 = M ∧ (invertRun M).2 ∧
    decomposeRunR N = ((0, 0, 0, 0), True) := by
  refine ⟨?_, ?_, ?_⟩
  · rw [invertRun, if_pos hM]
  · rw [invertRun, if_pos hM]
    trivial
  · rw [decomposeRunR, if_neg hN]

/-- Witness for claim C7 at the zero matrix (singular) and the matrix with a
single off-diagonal 1 (non-Hermitian). -/
theorem singular_operator_fallback_witness :
    (Complex.abs (determ ⟨0, 0, 0, 0⟩) < Resolution ∧
      ¬ isHermetian ⟨0, 1, 0, 0⟩) ∧
    ((invertRun ⟨0, 0, 0, 0⟩).1 = ⟨0, 0, 0, 0⟩ ∧ (invertRun ⟨0, 0, 0, 0⟩).2 ∧
      decomposeRunR ⟨0, 1, 0, 0⟩ = ((0, 0, 0, 0), True)) := by
  have h1 : Complex.abs (determ (⟨0, 0, 0, 0⟩ : PauliMatrix)) < Resolution := by
    simp [determ, Resolution]
    norm_num
  have h2 : ¬ isHermetian ⟨0, 1, 0, 0⟩ := by
    intro h
    have h21 := h.2.1
    simp [Resolution] at h21
    norm_num at h21
  exact ⟨⟨h1, h2⟩, singular_operator_fallback _ _ h1 h2⟩

/-- Claim C8: the real-coefficient `Decompose` applied to `Compose(a, b)`
recovers `(a, b)` exactly (hence within `Resolution`); in particular the
composed matrix passes the Hermiticity check, so the error branch is not
taken. -/
theorem decompose_compose_roundtrip (a b1 b2 b3 : ℝ) :
    decomposeRunR (composeR a b1 b2 b3) = ((a, b1, b2, b3), False) := by
  have hherm : isHermetian (composeR a b1 b2 b3) := by
    refine ⟨?_, ?_, ?_, ?_⟩ <;>
    · simp only [composeR, composeC, map_add, map_sub, map_mul, Complex.conj_ofReal,
        Complex.conj_I]
      exact abs_lt_res_of_eq_zero (by ring)
  rw [decomposeRunR, if_pos hherm]
  simp [composeR, composeC, Complex.add_re, Complex.sub_re, Complex.ofReal_re,
    Complex.add_im, Complex.sub_im, Complex.mul_im, Complex.I_re, Complex.I_im,
    Complex.ofReal_im]

/-- Claim C9: for every matrix `A` and every `m` that is non-singular at the
`Resolution` threshold, `SimTransform(m)` replaces `A` by `m * A * mInverse`
and `UniTransform(m)` replaces `A` by `m * A * mAdjoint`, with the factors
multiplied in exactly that left-to-right order; `mInverse` here is a true
right inverse of `m`. -/
theorem transform_order_correct (A m : PauliMatrix)
    (h : Resolution ≤ Complex.abs (determ m)) :
    simTransform A m = matMul (matMul m A) (closedInverse m) ∧
    matMul m (closedInverse m) = idPauli ∧
    uniTransform A m = matMul (matMul m A) (adjointM m) := by
  have hns : ¬ Complex.abs (determ m) < Resolution := not_lt.mpr h
  have hdet : determ m ≠ 0 := by
    intro h0
    rw [h0] at h
    simp [Resolution] at h
    norm_num at h
  refine ⟨?_, ?_, rfl⟩
  · simp [simTransform, divAssign, invertRun, hns, closedInverse]
  · simp only [matMul, closedInverse, idPauli, PauliMatrix.mk.injEq]
    refine ⟨?_, ?_, ?_, ?_⟩ <;> field_simp <;> simp only [determ] at hdet ⊢ <;> ring

/-- Witness for claim C9 at the matrix `m = diag(2, 1)` (determinant 2) and
`A` the first Pauli matrix. -/
theorem transform_order_correct_witness :
    (Resolution ≤ Complex.abs (determ ⟨2, 0, 0, 1⟩)) ∧
    (simTransform ⟨0, 1, 1, 0⟩ ⟨2, 0, 0, 1⟩ =
        matMul (matMul ⟨2, 0, 0, 1⟩ ⟨0, 1, 1, 0⟩) (closedInverse ⟨2, 0, 0, 1⟩) ∧
      matMul ⟨2, 0, 0, 1⟩ (closedInverse ⟨2, 0, 0, 1⟩) = idPauli ∧
      uniTransform ⟨0, 1, 1, 0⟩ ⟨2, 0, 0, 1⟩ =
        matMul (matMul ⟨2, 0, 0, 1⟩ ⟨0, 1, 1, 0⟩) (adjointM ⟨2, 0, 0, 1⟩)) := by
  have h : Resolution ≤ Complex.abs (determ (⟨2, 0, 0, 1⟩ : PauliMatrix)) := by
    have e : determ (⟨2, 0, 0, 1⟩ : PauliMatrix) = 2 := by
      simp [determ]
    rw [e]
    simp [Resolution, Complex.abs_two]
    norm_num
  exact ⟨h, transform_order_correct _ _ h⟩

set_option maxHeartbeats 2000000 in
/-- Claim C1: when the spin-density matrix of every external particle is the
rank-1 idempotent projector onto a single helicity/polarization basis state,
the contracted squared amplitude of the Compton and Bremsstrahlung spin sums
equals `|amp|^2` of the single helicity amplitude selected by those basis
states, with no contribution from any other term of the contraction loop. -/
theorem pure_sdm_contraction_eq_single_amp :
    (∀ (amp4 : Fin 2 → Fin 2 → Fin 2 → Fin 2 → ℂ) (a b c d : Fin 2),
      comptonAmpSquared amp4 (pureSDM a) (pureSDM b) (pureSDM c) (pureSDM d) =
        (Complex.normSq (amp4 a b c d) : ℂ)) ∧
    (∀ (amp3 : Fin 2 → Fin 2 → Fin 2 → ℂ) (a b c : Fin 2),
      bremsAmpSquared amp3 (pureSDM a) (pureSDM b) (pureSDM c) =
        (Complex.normSq (amp3 a b c) : ℂ)) := by
  constructor
  · intro amp4 a b c d
    fin_cases a <;> fin_cases b <;> fin_cases c <;> fin_cases d <;>
      simp [comptonAmpSquared, pureSDM, Fin.sum_univ_two,
        Complex.normSq_eq_conj_mul_self, mul_comm]
  · intro amp3 a b c
    fin_cases a <;> fin_cases b <;> fin_cases c <;>
      simp [bremsAmpSquared, pureSDM, Fin.sum_univ_two,
        Complex.normSq_eq_conj_mul_self, mul_comm]

set_option maxHeartbeats 2000000 in
/-- With identity SDMs the Compton contraction collapses to the diagonal sum
of squared magnitudes, so its real part is non-negative. -/
lemma comptonAmpSquared_id_nonneg (amp4 : Fin 2 → Fin 2 → Fin 2 → Fin 2 → ℂ) :
    0 ≤ (comptonAmpSquared amp4 idSDM idSDM idSDM idSDM).re := by
  have h : comptonAmpSquared amp4 idSDM idSDM idSDM idSDM =
      ∑ gi : Fin 2, ∑ gf : Fin 2, ∑ hi : Fin 2, ∑ hf : Fin 2,
        (Complex.normSq (amp4 hi hf gi gf) : ℂ) := by
    simp [comptonAmpSquared, idSDM, Fin.sum_univ_two, Complex.normSq_eq_conj_mul_self,
      mul_comm]
  rw [h]
  simp [Fin.sum_univ_two]
  repeat' apply add_nonneg
  all_goals first
  | exact Complex.normSq_nonneg _
  | exact mul_self_nonneg _

set_option maxHeartbeats 4000000 in
/-- With identity SDMs the e-e bremsstrahlung contraction collapses to the
diagonal sum of squared magnitudes, so its real part is non-negative. -/
lemma eeBremsAmpSquared_id_nonneg (amp5 : Fin 2 → Fin 2 → Fin 2 → Fin 2 → Fin 2 → ℂ) :
    0 ≤ (eeBremsAmpSquared amp5 idSDM idSDM idSDM idSDM idSDM).re := by
  have h : eeBremsAmpSquared amp5 idSDM idSDM idSDM idSDM idSDM =
      ∑ gf : Fin 2, ∑ h0 : Fin 2, ∑ h1 : Fin 2, ∑ h2 : Fin 2, ∑ h3 : Fin 2,
        (Complex.normSq (amp5 h0 h1 h2 h3 gf) : ℂ) := by
    simp [eeBremsAmpSquared, idSDM, Fin.sum_univ_two, Complex.normSq_eq_conj_mul_self,
      mul_comm]
  rw [h]
  simp [Fin.sum_univ_two]
  repeat' apply add_nonneg
  all_goals first
  | exact Complex.normSq_nonneg _
  | exact mul_self_nonneg _

/-- Claim C2: with every SDM equal to the identity (unpolarized ensemble)
and a valid, non-degenerate kinematic configuration (non-negative energies,
non-negative constants, and for Compton a non-negative `eF.gF` scalar
product as holds for physical on-shell momenta), the cross sections returned
by `Compton` and `eeBremsstrahlung` are non-negative; in this exact-real
embedding the hypotheses also make every kinematic factor finite. -/
theorem unpolarized_xsect_nonneg
    (hbarcSqr alphaQED : ℝ)
    (amp4 : Fin 2 → Fin 2 → Fin 2 → Fin 2 → ℂ)
    (amp5 : Fin 2 → Fin 2 → Fin 2 → Fin 2 → Fin 2 → ℂ)
    (momGI momEI momGF momEF momE0 momE1 momE3 : FourVector)
    (hb : 0 ≤ hbarcSqr) (ha : 0 ≤ alphaQED)
    (hgI : 0 ≤ momGI.t) (heI : 0 ≤ momEI.t)
    (hsp : 0 ≤ scalarProd momEF momGF)
    (he1 : 0 ≤ momE1.t) (he3 : 0 ≤ momE3.t) :
    0 ≤ compton hbarcSqr alphaQED amp4 idSDM idSDM idSDM idSDM momGI momEI momGF momEF ∧
    0 ≤ eeBremsXsect hbarcSqr alphaQED amp5 idSDM idSDM idSDM idSDM idSDM
        momE0 momE1 momE3 := by
  constructor
  · unfold compton comptonKinFactor
    have hre := comptonAmpSquared_id_nonneg amp4
    have hlen : (0:ℝ) ≤ vlength momEI := Real.sqrt_nonneg _
    apply mul_nonneg
    · apply mul_nonneg
      · exact mul_nonneg hb (mul_self_nonneg _)
      · exact hre
    · apply div_nonneg
      · apply mul_nonneg (by norm_num)
        exact div_nonneg (div_nonneg (mul_self_nonneg _) hsp) (by norm_num)
      · exact mul_nonneg (mul_nonneg (by norm_num) hgI) (add_nonneg hlen heI)
  · unfold eeBremsXsect
    have hre := eeBremsAmpSquared_id_nonneg amp5
    apply mul_nonneg
    · exact mul_nonneg (mul_nonneg hb (pow_nonneg ha 3)) hre
    · apply div_nonneg
      · exact div_nonneg (by norm_num) (mul_self_nonneg _)
      · exact mul_nonneg (mul_nonneg (by norm_num) he1) he3

/-- Witness for claim C2 at unit constants, vanishing amplitude tensors and
unit-energy momenta. -/
theorem unpolarized_xsect_nonneg_witness :
    ((0:ℝ) ≤ 1 ∧ 0 ≤ (FourVector.mk 1 0 0 0).t ∧
      0 ≤ scalarProd ⟨1, 0, 0, 0⟩ ⟨1, 0, 0, 0⟩) ∧
    (0 ≤ compton 1 1 (fun _ _ _ _ => 0) idSDM idSDM idSDM idSDM
        ⟨1, 0, 0, 0⟩ ⟨1, 0, 0, 0⟩ ⟨1, 0, 0, 0⟩ ⟨1, 0, 0, 0⟩ ∧
      0 ≤ eeBremsXsect 1 1 (fun _ _ _ _ _ => 0) idSDM idSDM idSDM idSDM idSDM
        ⟨1, 0, 0, 0⟩ ⟨1, 0, 0, 0⟩ ⟨1, 0, 0, 0⟩) := by
  have h1 : (0:ℝ) ≤ 1 := by norm_num
  have ht : (0:ℝ) ≤ (FourVector.mk 1 0 0 0).t := by norm_num
  have hsp : (0:ℝ) ≤ scalarProd ⟨1, 0, 0, 0⟩ ⟨1, 0, 0, 0⟩ := by
    norm_num [scalarProd]
  exact ⟨⟨h1, ht, hsp⟩,
    unpolarized_xsect_nonneg 1 1 (fun _ _ _ _ => 0) (fun _ _ _ _ _ => 0)
      ⟨1, 0, 0, 0⟩ ⟨1, 0, 0, 0⟩ ⟨1, 0, 0, 0⟩ ⟨1, 0, 0, 0⟩
      ⟨1, 0, 0, 0⟩ ⟨1, 0, 0, 0⟩ ⟨1, 0, 0, 0⟩ h1 h1 ht ht hsp ht ht⟩

set_option maxHeartbeats 1000000 in
/-- Claim C3 counterexample: at a concrete input whose contracted Compton
amplitude has negative real part (violating the reality/positivity check),
`Compton` emits no warning at all — the source of `TCrossSection::Compton`
contains no `DEBUGGING` self-check — so the claim that every process
function verifies the contraction is false. -/
theorem compton_lacks_diagnostic_check :
    ampWarning (comptonAmpSquared (fun _ _ _ _ => 1)
      (fun i j => if i = 0 ∧ j = 0 then (-1 : ℂ) else 0)
      (pureSDM 0) (pureSDM 0) (pureSDM 0)) ∧
    ¬ (comptonRun 1 1 (fun _ _ _ _ => 1)
      (fun i j => if i = 0 ∧ j = 0 then (-1 : ℂ) else 0)
      (pureSDM 0) (pureSDM 0) (pureSDM 0)
      ⟨1, 0, 0, 1⟩ ⟨1, 0, 0, 0⟩ ⟨1, 0, 0, 1⟩ ⟨1, 0, 0, 0⟩).2 := by
  have hval : comptonAmpSquared (fun _ _ _ _ => 1)
      (fun i j => if i = 0 ∧ j = 0 then (-1 : ℂ) else 0)
      (pureSDM 0) (pureSDM 0) (pureSDM 0) = -1 := by
    simp [comptonAmpSquared, pureSDM, Fin.sum_univ_two]
  constructor
  · left
    rw [hval]
    norm_num
  · simp [comptonRun]

/-- Claim C3 (amended): in the process functions that contain the
`DEBUGGING` self-check, exemplified by `Bremsstrahlung`, the check verifies
after the helicity contraction that the contracted squared amplitude is real
and non-negative within a relative tolerance of about `1e-8`, and a
violation only emits a warning: the returned value is the one computed from
the contraction, identical whether or not the diagnostic triggers;
`Compton`, however, contains no such check and never emits the warning. -/
theorem diagnostic_only_warns :
    (∀ (hb a : ℝ) (amp3 : Fin 2 → Fin 2 → Fin 2 → ℂ) (s1 s2 s3 : Sdm)
      (p1 p2 p3 : FourVector),
      (bremsRun hb a amp3 s1 s2 s3 p1 p2 p3).1 =
        bremsXsect hb a amp3 s1 s2 s3 p1 p2 p3 ∧
      ((bremsRun hb a amp3 s1 s2 s3 p1 p2 p3).2 ↔
        ampWarning (bremsAmpSquared amp3 s1 s2 s3))) ∧
    (∀ (hb a : ℝ) (amp4 : Fin 2 → Fin 2 → Fin 2 → Fin 2 → ℂ)
      (t1 t2 t3 t4 : Sdm) (q1 q2 q3 q4 : FourVector),
      ¬ (comptonRun hb a amp4 t1 t2 t3 t4 q1 q2 q3 q4).2) := by
  constructor
  · intro hb a amp3 s1 s2 s3 p1 p2 p3
    exact ⟨rfl, Iff.rfl⟩
  · intro hb a amp4 t1 t2 t3 t4 q1 q2 q3 q4
    simp [comptonRun]

/-- Claim C10: `Compton` always returns
`hbarcSqr * alphaQED^2 * real(ampSquared) * kinFactor` computed from the
helicity contraction; the Klein-Nishina alternate formula coded after the
unconditional `return` is dead code, and at a concrete input its value
differs from the value `Compton` returns, so it is never the returned
value. -/
theorem compton_returns_contraction_not_klein_nishina :
    (∀ (hb a : ℝ) (amp4 : Fin 2 → Fin 2 → Fin 2 → Fin 2 → ℂ)
      (s1 s2 s3 s4 : Sdm) (q1 q2 q3 q4 : FourVector),
      compton hb a amp4 s1 s2 s3 s4 q1 q2 q3 q4 =
        hb * (a * a) * (comptonAmpSquared amp4 s1 s2 s3 s4).re *
          comptonKinFactor q1 q2 q3 q4) ∧
    compton 1 1 (fun _ _ _ _ => 0) idSDM idSDM idSDM idSDM
        ⟨1, 0, 0, 1⟩ ⟨1, 0, 0, 0⟩ ⟨1, 0, 0, 1⟩ ⟨1, 0, 0, 0⟩ ≠
      kleinNishina 1 1 1 ⟨1, 0, 0, 1⟩ ⟨1, 0, 0, 1⟩ := by
  constructor
  · intro hb a amp4 s1 s2 s3 s4 q1 q2 q3 q4
    rfl
  · have hz : compton 1 1 (fun _ _ _ _ => 0) idSDM idSDM idSDM idSDM
        ⟨1, 0, 0, 1⟩ ⟨1, 0, 0, 0⟩ ⟨1, 0, 0, 1⟩ ⟨1, 0, 0, 0⟩ = 0 := by
      simp [compton, comptonAmpSquared]
    have hk : kleinNishina 1 1 1 ⟨1, 0, 0, 1⟩ ⟨1, 0, 0, 1⟩ = 1 := by
      norm_num [kleinNishina]
    rw [hz, hk]
    norm_num

/-- Metric sign attached to an explicit Lorentz-index sum:
`(mu == 0) ? +1 : -1`. -/
def metric4 (mu : Fin 4) : ℝ :=
  if mu = 0 then 1 else -1

/-- Embedding of the diagram assembly of `TCrossSection::TripletProduction`
(lines 570-613).  The Dirac-algebra sandwich factors are values produced by
external collaborators (`TDiracSpinor::ScalarProd`, `TDiracMatrix`), so they
enter as abstract parameters: `s31 mu h3 h1` stands for
`u3[h3].ScalarProd(gamma[mu] * v1[h1])` and so on, and `cCD2 mu gi h2 h0`
stands for the sandwich of the un-normalized diagram matrix
`gamma[mu]*epropCD2a*epsI + epsI*epropCD2b*gamma[mu]`.  The code multiplies
the `CD3`/`GD3` matrices by `gpropCD3`/`gpropGD3` when `e2` and `e3` have
equal mass, and by `0` otherwise; because the sandwich is bilinear, that
scalar multiplies the sandwich value here. -/
def tripletInvAmp (m2 m3 : ℝ)
    (gpropCD2 gpropGD2 gpropCD3 gpropGD3 : ℝ)
    (s31 s21 s20 s30 : Fin 4 → Fin 2 → Fin 2 → ℂ)
    (cCD2 cCD3 cGD2 cGD3 : Fin 4 → Fin 2 → Fin 2 → Fin 2 → ℂ)
    (h0 h1 h2 h3 gi : Fin 2) : ℂ :=
  ∑ mu : Fin 4, (metric4 mu : ℂ) *
    (s31 mu h3 h1 * ((gpropCD2 : ℂ) * cCD2 mu gi h2 h0)
     - s21 mu h2 h1 * ((if m2 = m3 then (gpropCD3 : ℂ) else 0) * cCD3 mu gi h3 h0)
     + s20 mu h2 h0 * ((gpropGD2 : ℂ) * cGD2 mu gi h3 h1)
     - s30 mu h3 h0 * ((if m2 = m3 then (gpropGD3 : ℂ) else 0) * cGD3 mu gi h2 h1))

/-- The triplet amplitude built from the direct (`swap = 2`) diagrams only,
with the exchange (`swap = 3`) contributions exactly zero. -/
def tripletInvAmpDirect (gpropCD2 gpropGD2 : ℝ)
    (s31 s20 : Fin 4 → Fin 2 → Fin 2 → ℂ)
    (cCD2 cGD2 : Fin 4 → Fin 2 → Fin 2 → Fin 2 → ℂ)
    (h0 h1 h2 h3 gi : Fin 2) : ℂ :=
  ∑ mu : Fin 4, (metric4 mu : ℂ) *
    (s31 mu h3 h1 * ((gpropCD2 : ℂ) * cCD2 mu gi h2 h0)
     + s20 mu h2 h0 * ((gpropGD2 : ℂ) * cGD2 mu gi h3 h1))

/-- Embedding of the spin contraction loop of
`TCrossSection::TripletProduction` (lines 616-643):
`invAmp[h0][h1][h2][h3][gi] * conj(invAmp[h0bar][h1bar][h2bar][h3bar][gibar])
 * e0.SDM[h0][h0bar] * e1.SDM[h1][h1bar] * e2.SDM[h2bar][h2]
 * e3.SDM[h3bar][h3] * g0.SDM[gi][gibar]`. -/
def tripletAmpSquared (invAmp : Fin 2 → Fin 2 → Fin 2 → Fin 2 → Fin 2 → ℂ)
    (sdm0 sdm1 sdm2 sdm3 sdmG : Sdm) : ℂ :=
  ∑ gi : Fin 2, ∑ gibar : Fin 2, ∑ h0 : Fin 2, ∑ h0bar : Fin 2,
  ∑ h1 : Fin 2, ∑ h1bar : Fin 2, ∑ h2 : Fin 2, ∑ h2bar : Fin 2,
  ∑ h3 : Fin 2, ∑ h3bar : Fin 2,
    invAmp h0 h1 h2 h3 gi * (starRingEnd ℂ) (invAmp h0bar h1bar h2bar h3bar gibar) *
      sdm0 h0 h0bar * sdm1 h1 h1bar * sdm2 h2bar h2 * sdm3 h3bar h3 * sdmG gi gibar

/-- Embedding of the value returned by `TCrossSection::TripletProduction`
(lines 664-669): `fluxFactor = 4*g0.Mom()[0]*(e0.Mom().Length()+e0.Mom()[0])`,
`rhoFactor = 1/(8*e3.Mom()[0]*(e1.Mom()+e2.Mom()).Length())`,
`piFactor = pow(2*PI,4-9)*pow(4*PI,3)`, and
`diffXsect = hbarcSqr*pow(alphaQED,3)*real(ampSquared)
 /fluxFactor*rhoFactor*piFactor`. -/
def tripletXsect (hbarcSqr alphaQED : ℝ)
    (invAmp : Fin 2 → Fin 2 → Fin 2 → Fin 2 → Fin 2 → ℂ)
    (sdm0 sdm1 sdm2 sdm3 sdmG : Sdm)
    (momG0 momE0 momE1 momE2 momE3 : FourVector) : ℝ :=
  hbarcSqr * alphaQED ^ 3 *
    (tripletAmpSquared invAmp sdm0 sdm1 sdm2 sdm3 sdmG).re /
    (4 * momG0.t * (vlength momE0 + momE0.t)) *
    (1 / (8 * momE3.t * vlength (fvAdd momE1 momE2))) *
    ((2 * Real.pi) ^ ((4 : ℤ) - 9) * (4 * Real.pi) ^ 3)

/-- Signs of the six outgoing-electron permutations of
`TCrossSection::eTripletProduction`: the source array
`permorder = {+1, -1, +1, -1, +1, -1}`. -/
def permorderL : List ℝ :=
  [1, -1, 1, -1, 1, -1]

/-- Embedding of the diagram assembly of `TCrossSection::eTripletProduction`
(lines 1338-1425): the number of outgoing-electron permutations is
`nperms = (mLepton == mElectron) ? 6 : 2`, and the amplitude sums the
permutation bracket (abstract here, since it is built from external
Dirac-algebra sandwiches) over `mu`, `nu` and `p < nperms`, weighted by the
Lorentz metric signs and `permorder[p]`. -/
def eTripletInvAmp (mLepton mElectron : ℝ)
    (bracket : Fin 4 → Fin 4 → ℕ → Fin 2 → Fin 2 → Fin 2 → Fin 2 → Fin 2 → Fin 2 → ℂ)
    (hi hf li lf ti tf : Fin 2) : ℂ :=
  ∑ mu : Fin 4, ∑ nu : Fin 4,
  ∑ p in Finset.range (if mLepton = mElectron then 6 else 2),
    (metric4 mu : ℂ) * (metric4 nu : ℂ) * ((permorderL.getD p 0 : ℝ) : ℂ) *
      bracket mu nu p hi hf li lf ti tf

/-- The `eTripletProduction` amplitude restricted to the first two
outgoing-electron permutations. -/
def eTripletInvAmpFirstTwo
    (bracket : Fin 4 → Fin 4 → ℕ → Fin 2 → Fin 2 → Fin 2 → Fin 2 → Fin 2 → Fin 2 → ℂ)
    (hi hf li lf ti tf : Fin 2) : ℂ :=
  ∑ mu : Fin 4, ∑ nu : Fin 4, ∑ p in Finset.range 2,
    (metric4 mu : ℂ) * (metric4 nu : ℂ) * ((permorderL.getD p 0 : ℝ) : ℂ) *
      bracket mu nu p hi hf li lf ti tf

/-- Claim C4: when the nominally identical final-state fermions do not share
the same mass, `TripletProduction` zeroes the swapped `CD3`/`GD3` diagram
contributions exactly (the amplitude coincides with the direct-diagram-only
amplitude), the call still returns a cross section computed from the
remaining diagrams through the usual contraction and kinematic factors, and
`eTripletProduction` sums only the first 2 of the 6 outgoing-electron
permutations; no error is raised in either case (both functions are total
and return a value). -/
theorem unequal_mass_exchange_zeroed (m2 m3 mLepton mElectron : ℝ)
    (hm : m2 ≠ m3) (hm' : mLepton ≠ mElectron)
    (gpropCD2 gpropGD2 gpropCD3 gpropGD3 : ℝ)
    (s31 s21 s20 s30 : Fin 4 → Fin 2 → Fin 2 → ℂ)
    (cCD2 cCD3 cGD2 cGD3 : Fin 4 → Fin 2 → Fin 2 → Fin 2 → ℂ)
    (sdm0 sdm1 sdm2 sdm3 sdmG : Sdm)
    (hbarcSqr alphaQED : ℝ)
    (momG0 momE0 momE1 momE2 momE3 : FourVector)
    (bracket : Fin 4 → Fin 4 → ℕ → Fin 2 → Fin 2 → Fin 2 → Fin 2 → Fin 2 → Fin 2 → ℂ) :
    (∀ h0 h1 h2 h3 gi,
      tripletInvAmp m2 m3 gpropCD2 gpropGD2 gpropCD3 gpropGD3
          s31 s21 s20 s30 cCD2 cCD3 cGD2 cGD3 h0 h1 h2 h3 gi =
        tripletInvAmpDirect gpropCD2 gpropGD2 s31 s20 cCD2 cGD2 h0 h1 h2 h3 gi) ∧
    tripletXsect hbarcSqr alphaQED
        (tripletInvAmp m2 m3 gpropCD2 gpropGD2 gpropCD3 gpropGD3
          s31 s21 s20 s30 cCD2 cCD3 cGD2 cGD3)
        sdm0 sdm1 sdm2 sdm3 sdmG momG0 momE0 momE1 momE2 momE3 =
      tripletXsect hbarcSqr alphaQED
        (tripletInvAmpDirect gpropCD2 gpropGD2 s31 s20 cCD2 cGD2)
        sdm0 sdm1 sdm2 sdm3 sdmG momG0 momE0 momE1 momE2 momE3 ∧
    (∀ hi hf li lf ti tf,
      eTripletInvAmp mLepton mElectron bracket hi hf li lf ti tf =
        eTripletInvAmpFirstTwo bracket hi hf li lf ti tf) := by
  have hamp : ∀ h0 h1 h2 h3 gi,
      tripletInvAmp m2 m3 gpropCD2 gpropGD2 gpropCD3 gpropGD3
          s31 s21 s20 s30 cCD2 cCD3 cGD2 cGD3 h0 h1 h2 h3 gi =
        tripletInvAmpDirect gpropCD2 gpropGD2 s31 s20 cCD2 cGD2 h0 h1 h2 h3 gi := by
    intro h0 h1 h2 h3 gi
    unfold tripletInvAmp tripletInvAmpDirect
    apply Finset.sum_congr rfl
    intro mu _
    simp only [if_neg hm]
    ring
  have hfun : tripletInvAmp m2 m3 gpropCD2 gpropGD2 gpropCD3 gpropGD3
      s31 s21 s20 s30 cCD2 cCD3 cGD2 cGD3 =
      tripletInvAmpDirect gpropCD2 gpropGD2 s31 s20 cCD2 cGD2 := by
    funext h0 h1 h2 h3 gi
    exact hamp h0 h1 h2 h3 gi
  refine ⟨hamp, by rw [hfun], ?_⟩
  intro hi hf li lf ti tf
  unfold eTripletInvAmp eTripletInvAmpFirstTwo
  rw [if_neg hm']

/-- Witness for claim C4 at the concrete unequal masses `1` and `2`, unit
sandwich values, identity SDMs and unit-energy momenta. -/
theorem unequal_mass_exchange_zeroed_witness :
    ((1 : ℝ) ≠ 2) ∧
    ((∀ h0 h1 h2 h3 gi,
      tripletInvAmp 1 2 1 1 1 1
          (fun _ _ _ => 1) (fun _ _ _ => 1) (fun _ _ _ => 1) (fun _ _ _ => 1)
          (fun _ _ _ _ => 1) (fun _ _ _ _ => 1) (fun _ _ _ _ => 1) (fun _ _ _ _ => 1)
          h0 h1 h2 h3 gi =
        tripletInvAmpDirect 1 1 (fun _ _ _ => 1) (fun _ _ _ => 1)
          (fun _ _ _ _ => 1) (fun _ _ _ _ => 1) h0 h1 h2 h3 gi) ∧
    tripletXsect 1 1
        (tripletInvAmp 1 2 1 1 1 1
          (fun _ _ _ => 1) (fun _ _ _ => 1) (fun _ _ _ => 1) (fun _ _ _ => 1)
          (fun _ _ _ _ => 1) (fun _ _ _ _ => 1) (fun _ _ _ _ => 1) (fun _ _ _ _ => 1))
        idSDM idSDM idSDM idSDM idSDM
        ⟨1, 0, 0, 0⟩ ⟨1, 0, 0, 0⟩ ⟨1, 0, 0, 0⟩ ⟨1, 0, 0, 0⟩ ⟨1, 0, 0, 0⟩ =
      tripletXsect 1 1
        (tripletInvAmpDirect 1 1 (fun _ _ _ => 1) (fun _ _ _ => 1)
          (fun _ _ _ _ => 1) (fun _ _ _ _ => 1))
        idSDM idSDM idSDM idSDM idSDM
        ⟨1, 0, 0, 0⟩ ⟨1, 0, 0, 0⟩ ⟨1, 0, 0, 0⟩ ⟨1, 0, 0, 0⟩ ⟨1, 0, 0, 0⟩ ∧
    (∀ hi hf li lf ti tf,
      eTripletInvAmp 1 2 (fun _ _ _ _ _ _ _ _ _ => 1) hi hf li lf ti tf =
        eTripletInvAmpFirstTwo (fun _ _ _ _ _ _ _ _ _ => 1) hi hf li lf ti tf)) := by
  have hm : (1 : ℝ) ≠ 2 := by norm_num
  exact ⟨hm, unequal_mass_exchange_zeroed 1 2 1 2 hm hm 1 1 1 1
    (fun _ _ _ => 1) (fun _ _ _ => 1) (fun _ _ _ => 1) (fun _ _ _ => 1)
    (fun _ _ _ _ => 1) (fun _ _ _ _ => 1) (fun _ _ _ _ => 1) (fun _ _ _ _ => 1)
    idSDM idSDM idSDM idSDM idSDM 1 1
    ⟨1, 0, 0, 0⟩ ⟨1, 0, 0, 0⟩ ⟨1, 0, 0, 0⟩ ⟨1, 0, 0, 0⟩ ⟨1, 0, 0, 0⟩
    (fun _ _ _ _ _ _ _ _ _ => 1)⟩

end Diracxx
